import Mathlib

/-!
Shallow embedding of `multiSite_webscraping.py`: the metric miner
(`extract_percent_and_time_snippets` with its regex patterns), the generic
content extractor (`extract_body_generic`, `parse_page_generic`), the
orchestrator (`scrape_urls`) and the aggregation step (`build_numbers_table`).

Python strings are modelled as `String` / `List Char` (the inputs of interest
are ASCII, where Python's `\d`, `\w`, `\s`, `str.lower` agree with the ASCII
classifiers used here).  The regular expressions of the source are compiled by
hand into deterministic matchers: each pattern of the source is simple enough
that Python's backtracking never changes the outcome (greedy runs of digits or
whitespace are always followed by a character of a disjoint class), which is
noted at each matcher.
-/

/-! ### Character classes (ASCII counterparts of Python's `\d`, `\s`, `\w`) -/

/-- Python regex `\d` on the ASCII range. -/
def isDigitChar (c : Char) : Bool := c.isDigit

/-- Python regex `\s` on the ASCII range: space, tab, newline, CR, VT, FF. -/
def isSpaceChar (c : Char) : Bool :=
  c = ' ' || c = '\t' || c = '\n' || c = '\r' || c = '\x0b' || c = '\x0c'

/-- Python regex `\w` (word character) on the ASCII range. -/
def isWordChar (c : Char) : Bool := c.isAlpha || c.isDigit || c = '_'

/-- Python regex `[A-Za-z]`. -/
def isAsciiLetter (c : Char) : Bool := c.isAlpha

/-- Length of the maximal prefix of `cs` whose characters satisfy `p`
(the text a greedy `\d+` or `\s*` consumes). -/
def runLength (p : Char → Bool) : List Char → Nat
  | [] => 0
  | c :: t => if p c then runLength p t + 1 else 0

/-- `cs[a:b]` of Python, character slicing with clipping. -/
def sliceChars (cs : List Char) (a b : Nat) : List Char :=
  (cs.drop a).take (b - a)

/-- Python `str.lower()` on the ASCII range. -/
def lowerChars (cs : List Char) : List Char := cs.map Char.toLower

/-- Python's substring test `needle in hay`. -/
def containsSub (needle : List Char) : List Char → Bool
  | [] => needle.isEmpty
  | c :: t => needle.isPrefixOf (c :: t) || containsSub needle t

/-- Case-insensitive literal prefix match (a literal of a pattern compiled
with `re.IGNORECASE`). -/
def isPrefixCI : List Char → List Char → Bool
  | [], _ => true
  | _ :: _, [] => false
  | x :: xs, y :: ys => (x.toLower == y.toLower) && isPrefixCI xs ys

/-! ### `clean` — whitespace normalisation -/

/-- `re.sub(r"\s+", " ", s)`: every maximal whitespace run becomes one space.
The flag records whether the previous character was part of a run already
replaced. -/
def collapseWsAux : List Char → Bool → List Char
  | [], _ => []
  | c :: t, prevSpace =>
    if isSpaceChar c then
      if prevSpace then collapseWsAux t true else ' ' :: collapseWsAux t true
    else c :: collapseWsAux t false

/-- Python `str.strip()` restricted to the whitespace class. -/
def stripChars (cs : List Char) : List Char :=
  ((cs.dropWhile isSpaceChar).reverse.dropWhile isSpaceChar).reverse

/-- `clean(s)` of the source: collapse whitespace, strip, and map the empty
result to an absent value. -/
def clean (s : String) : Option String :=
  let t := stripChars (collapseWsAux s.data false)
  if t.isEmpty then none else some (String.mk t)

/-! ### Change vocabulary and the relevance filter -/

/-- `CHANGE_KEYWORDS` of the source, verbatim. -/
def CHANGE_KEYWORDS : List String :=
  ["increase", "increased", "increases", "improve", "improved", "improves", "improvement",
   "decrease", "decreased", "reduces", "reduced", "reduction",
   "saved", "save", "saving", "cut", "cuts", "cutting",
   "faster", "slower", "less time", "more time", "time saved",
   "documentation", "burden", "workload", "productivity", "efficient", "efficiency"]

/-- `snippet_has_change_context`: some keyword is a substring of the
lowercased snippet. -/
def snippet_has_change_context (snippet : String) : Bool :=
  CHANGE_KEYWORDS.any (fun k => containsSub k.data (lowerChars snippet.data))

/-! ### Hand-compiled matchers for the source's regex patterns

Each matcher takes the full text and a start position and returns the end
position of the match there, if any.  Backtracking never changes the result
for these patterns: after dropping an optional decimal part the next character
is `.`, which can start neither `\s*` progress nor any of the literals; after
shortening a greedy digit or whitespace run the next character is a digit or a
whitespace character, again outside every possible continuation.  So the
greedy, no-backtracking reading implemented here coincides with `re`. -/

/-- `\b` when the character at `i` is a word character: `i` is at the start of
the text or preceded by a non-word character. -/
def noWordBefore (cs : List Char) (i : Nat) : Bool :=
  i == 0 || !(isWordChar ((cs[i-1]?).getD ' '))

/-- `\b` when the character at `i-1` is a word character: the text ends at `i`
or the character at `i` is a non-word character. -/
def boundaryAfter (cs : List Char) (i : Nat) : Bool :=
  match cs[i]? with
  | none => true
  | some c => !(isWordChar c)

/-- `\b\d+(\.\d+)?` at position `i`: the end position of the number part all
five source patterns share, or `none`. -/
def numberEnd (cs : List Char) (i : Nat) : Option Nat :=
  let d := runLength isDigitChar (cs.drop i)
  if d = 0 then none
  else if !(noWordBefore cs i) then none
  else
    let j := i + d
    match cs[j]?, cs[j+1]? with
    | some '.', some c2 =>
      if isDigitChar c2 then some (j + 1 + runLength isDigitChar (cs.drop (j+1)))
      else some j
    | _, _ => some j

/-- `PERCENT_PATTERNS[0]`: `\b\d+(\.\d+)?\s*%`. -/
def matchPercentSign (cs : List Char) (i : Nat) : Option Nat :=
  (numberEnd cs i).bind fun j =>
    let w := j + runLength isSpaceChar (cs.drop j)
    match cs[w]? with
    | some '%' => some (w + 1)
    | _ => none

/-- The alternation `(lit1|lit2|...)\b` after `\s*`, literals tried in the
source's order, each case-insensitively and followed by a word boundary. -/
def altWordEnd (cs : List Char) (w : Nat) : List (List Char) → Option Nat
  | [] => none
  | a :: rest =>
    if isPrefixCI a (cs.drop w) && boundaryAfter cs (w + a.length) then some (w + a.length)
    else altWordEnd cs w rest

/-- `\b\d+(\.\d+)?\s*(alt1|alt2|...)\b` for the word-suffixed patterns. -/
def matchNumberWord (alts : List (List Char)) (cs : List Char) (i : Nat) : Option Nat :=
  (numberEnd cs i).bind fun j =>
    altWordEnd cs (j + runLength isSpaceChar (cs.drop j)) alts

/-- `PERCENT_PATTERNS` of the source, as matchers in source order.  The regex
alternations `percent|percentage` and `percentage points|pp` are expanded in
the engine's attempt order (first alternative first, the trailing `\b`
checked per alternative). -/
def percentMatchers : List (List Char → Nat → Option Nat) :=
  [matchPercentSign,
   matchNumberWord ["percent".data, "percentage".data],
   matchNumberWord ["percentage points".data, "pp".data]]

/-- `TIME_PATTERNS` of the source.  `hours?|hrs?` attempts, in order,
`hours`, `hour`, `hrs`, `hr` (greedy `s?` before the next alternative), and
likewise for minutes. -/
def timeMatchers : List (List Char → Nat → Option Nat) :=
  [matchNumberWord ["hours".data, "hour".data, "hrs".data, "hr".data],
   matchNumberWord ["minutes".data, "minute".data, "mins".data, "min".data]]

/-- `re.finditer`: scan left to right from `pos`, emit the leftmost match,
continue at its end (the patterns never match the empty string, so the end is
past the start; `max` makes the progress explicit).  The fuel starts at
`cs.length + 1`, one unit per candidate position. -/
def finditerGo (m : List Char → Nat → Option Nat) (cs : List Char) : Nat → Nat → List (Nat × Nat)
  | _, 0 => []
  | pos, fuel + 1 =>
    if cs.length < pos then []
    else
      match m cs pos with
      | some e => (pos, e) :: finditerGo m cs (max e (pos + 1)) fuel
      | none => finditerGo m cs (pos + 1) fuel

/-- All matches of one pattern, in source order. -/
def finditer (m : List Char → Nat → Option Nat) (cs : List Char) : List (Nat × Nat) :=
  finditerGo m cs 0 (cs.length + 1)

/-! ### The miner: `extract_percent_and_time_snippets` -/

/-- `MetricSnippet` of the spec: one emitted hit of the miner
(`{"metric_type": ..., "value": ..., "snippet": ...}` in the source). -/
structure MetricSnippet where
  metric_type : String
  value : String
  snippet : String
deriving DecidableEq, Repr

/-- The body of the source's match loop: build the clipped window, clean it,
and append a hit when the cleaned snippet is nonempty and passes
`snippet_has_change_context`. -/
def appendHit (mt : String) (cs : List Char) (window : Nat) (se : Nat × Nat)
    (hits : List MetricSnippet) : List MetricSnippet :=
  match clean (String.mk (sliceChars cs (se.1 - window) (min cs.length (se.2 + window)))) with
  | some t =>
    if snippet_has_change_context t then
      hits ++ [⟨mt, String.mk (sliceChars cs se.1 se.2), t⟩]
    else hits
  | none => hits

/-- The inner `for m in re.finditer(...)` loop: process the matches of one
pattern in order; after each one, return early (flag `true`) as soon as
`len(hits) >= max_hits`. -/
def processMatches (mt : String) (cs : List Char) (window maxHits : Nat) :
    List (Nat × Nat) → List MetricSnippet → List MetricSnippet × Bool
  | [], hits => (hits, false)
  | se :: rest, hits =>
    let h := appendHit mt cs window se hits
    if maxHits ≤ h.length then (h, true)
    else processMatches mt cs window maxHits rest h

/-- The outer `for pat in PATTERNS` loop of one family: patterns in order,
stopping the whole call when the early exit fired. -/
def runPats (mt : String) (cs : List Char) (window maxHits : Nat) :
    List (List Char → Nat → Option Nat) → List MetricSnippet → List MetricSnippet × Bool
  | [], hits => (hits, false)
  | m :: rest, hits =>
    let r := processMatches mt cs window maxHits (finditer m cs) hits
    if r.2 then (r.1, true)
    else runPats mt cs window maxHits rest r.1

/-- `extract_percent_and_time_snippets(text, window, max_hits)`: percent
patterns first, then (unless the early exit fired) time patterns, over the
same accumulating hit list. -/
def extract_percent_and_time_snippets (text : String) (window maxHits : Nat) :
    List MetricSnippet :=
  if text.isEmpty then []
  else
    let cs := text.data
    let p := runPats "percent" cs window maxHits percentMatchers []
    if p.2 then p.1
    else (runPats "time" cs window maxHits timeMatchers p.1).1

/-! ### `get_domain` and the page abstraction -/

/-- The suffix after the first occurrence of `pat`, if any. -/
def dropThrough (pat : List Char) : List Char → Option (List Char)
  | [] => if pat.isEmpty then some [] else none
  | c :: t => if pat.isPrefixOf (c :: t) then some ((c :: t).drop pat.length)
              else dropThrough pat t

/-- `get_domain(url) = urlparse(url).netloc.lower()`, modelled for the
absolute HTTP(S) URLs the pipeline receives: the text between `://` and the
next `/`, `?` or `#`, lowercased; empty when the URL has no `://`. -/
def get_domain (url : String) : String :=
  match dropThrough "://".data url.data with
  | some rest =>
    String.mk (lowerChars (rest.takeWhile (fun c => !(c = '/' || c = '?' || c = '#'))))
  | none => ""

/-- The BeautifulSoup queries `parse_page_generic` and `extract_body_generic`
issue against the parsed HTML, abstracted as fields: `selectText sel` is
`select_one(sel).get_text(" ", strip=True)` when the selector matches,
`metaNameContent` / `metaPropContent` the `content` attribute of the first
matching `meta` tag (`none` when there is no tag or no attribute), `jsonLd`
the (already `clean`ed) author/date pair `parse_json_ld_for_article` reads
from the JSON-LD blocks, `pageText` is `soup.get_text("\n", strip=True)`, and
`bodyContainer` the first content container a selector of
`extract_body_generic` matches, given as its paragraph texts
(`p.get_text(" ", strip=True)` for each `p`) together with the container's
full text. -/
structure Soup where
  selectText : String → Option String
  metaNameContent : String → Option String
  metaPropContent : String → Option String
  jsonLd : Option String × Option String
  pageText : String
  bodyContainer : Option (List String × String)

/-- `first_text(soup, selectors)`: the first selector with an element decides
the result (its cleaned text, even when that is absent). -/
def first_text (soup : Soup) : List String → Option String
  | [] => none
  | sel :: rest =>
    match soup.selectText sel with
    | some t => clean t
    | none => first_text soup rest

/-- `meta_content(soup, name=nm)`: the cleaned `content` attribute, `none`
when the tag or the attribute is missing or the attribute is empty (falsy). -/
def meta_content_name (soup : Soup) (nm : String) : Option String :=
  match soup.metaNameContent nm with
  | some c => if c = "" then none else clean c
  | none => none

/-- `meta_content(soup, prop=pr)`, as `meta_content_name` for `property`
attributes. -/
def meta_content_prop (soup : Soup) (pr : String) : Option String :=
  match soup.metaPropContent pr with
  | some c => if c = "" then none else clean c
  | none => none

/-- `parse_json_ld_for_article(soup)`.  The JSON-LD scan itself (JSON parsing
and the article-type test) is abstracted into the `Soup` field, which holds
the function's result; no claim concerns its internals. -/
def parse_json_ld_for_article (soup : Soup) : Option String × Option String :=
  soup.jsonLd

/-! ### `extract_body_generic` -/

/-- One position of `re.search(r"\bvia getty\b|\b/getty\b", t)` on the
already-lowercased paragraph: either alternative matches at `i`.  For
`\b/getty\b` the leading `\b` sits between a word character and the non-word
`/`, so it requires the preceding character to be a word character. -/
def gettyMatchAt (cs : List Char) (i : Nat) : Bool :=
  ("via getty".data.isPrefixOf (cs.drop i) && noWordBefore cs i
    && boundaryAfter cs (i + 9))
  || ("/getty".data.isPrefixOf (cs.drop i)
    && (decide (1 ≤ i) && isWordChar ((cs[i-1]?).getD ' '))
    && boundaryAfter cs (i + 6))

/-- Whether the photo-credit regex finds a match anywhere in the paragraph. -/
def gettyCredit (cs : List Char) : Bool :=
  (List.range (cs.length + 1)).any (gettyMatchAt cs)

/-- The paragraph loop of `extract_body_generic`: clean each paragraph, drop
empty ones and the boilerplate markers (compared lowercased). -/
def retainedParagraphs (ps : List String) : List String :=
  ps.filterMap fun p =>
    match clean p with
    | none => none
    | some t =>
      if ["advertisement", "subscribe", "sign up"].contains (String.mk (lowerChars t.data))
      then none else some t

/-- `extract_body_generic(soup)`: `none` when no container selector matched;
otherwise retained paragraphs joined by a blank line, with the first one
dropped when there is more than one and it matches the photo-credit pattern,
falling back to the container's cleaned full text when no paragraph remains. -/
def extract_body_generic (soup : Soup) : Option String :=
  match soup.bodyContainer with
  | none => none
  | some (ps, containerText) =>
    match retainedParagraphs ps with
    | [] => clean containerText
    | t0 :: rest =>
      if rest.length + 1 > 1 && gettyCredit (lowerChars t0.data) then
        some (String.intercalate "\n\n" rest)
      else
        some (String.intercalate "\n\n" (t0 :: rest))

/-! ### The published-date regex fallback -/

/-- `[0-9]{1,2}\s+[A-Za-z]{3}\s+[0-9]{4}` at the start of `cs`, returning the
matched text.  `{1,2}` takes two digits when two are there (a one-digit retry
would face a digit where `\s+` needs whitespace, so it never helps), `\s+`
takes its full run (shortening leaves whitespace where a letter or digit is
needed), and the month is exactly three letters, so a fourth letter makes the
following `\s+` fail with no way to backtrack. -/
def dayMonYearAt (cs : List Char) : Option (List Char) :=
  let d := runLength isDigitChar cs
  if d = 0 then none
  else
    let day := min d 2
    let s1 := runLength isSpaceChar (cs.drop day)
    if s1 = 0 then none
    else
      let mon := (cs.drop (day + s1)).take 3
      if mon.length = 3 && mon.all isAsciiLetter then
        let s2 := runLength isSpaceChar (cs.drop (day + s1 + 3))
        if s2 = 0 then none
        else
          let yr := (cs.drop (day + s1 + 3 + s2)).take 4
          if yr.length = 4 && yr.all isDigitChar then
            some (cs.take (day + s1 + 3 + s2 + 4))
          else none
      else none

/-- `Published:\s*([0-9]{1,2}\s+[A-Za-z]{3}\s+[0-9]{4})` at position `i`
(case sensitive, as in the source), returning group 1. -/
def matchPublishedAt (cs : List Char) (i : Nat) : Option (List Char) :=
  if "Published:".data.isPrefixOf (cs.drop i) then
    let j := i + 10
    dayMonYearAt (cs.drop (j + runLength isSpaceChar (cs.drop j)))
  else none

/-- `re.search` for the published-date fallback: the leftmost position with a
match decides the result. -/
def searchPublished (cs : List Char) : Option (List Char) :=
  (List.range (cs.length + 1)).findSome? (matchPublishedAt cs)

/-! ### `parse_page_generic` -/

/-- `ArticleRecord`: the dict `parse_page_generic` and `scrape_urls` build. -/
structure ArticleRecord where
  url : String
  site : String
  title : Option String
  author : Option String
  published_date : Option String
  description : Option String
  body : Option String
  error : Option String
deriving DecidableEq, Repr

/-- `parse_page_generic(html, url)` over the soup abstraction: the field
cascades (`or` chains over values that are `None` or nonempty, hence `<|>`),
the regex fallback for the date, and `error = None`. -/
def parse_page_generic (soup : Soup) (url : String) : ArticleRecord :=
  let ld := parse_json_ld_for_article soup
  let published0 :=
    ld.2 <|> meta_content_prop soup "article:published_time"
         <|> meta_content_name soup "pubdate" <|> meta_content_name soup "date"
  { url := url
    site := get_domain url
    title := first_text soup ["h1"] <|> meta_content_prop soup "og:title"
               <|> first_text soup ["title"]
    author := ld.1 <|> meta_content_name soup "author"
                <|> meta_content_prop soup "article:author"
    published_date :=
      match published0 with
      | some p => some p
      | none => (searchPublished soup.pageText.data).bind fun g => clean (String.mk g)
    description := meta_content_name soup "description" <|> meta_content_prop soup "og:description"
    body := extract_body_generic soup
    error := none }

/-! ### `scrape_urls` -/

/-- What the network and HTML-parsing environment does for one URL: either an
exception escapes the `try` block (`fetch_with_requests`, the Playwright
fallback, or `parse_page_generic`'s HTML parsing raising), or the fetch —
after the 403/429 Playwright fallback, which is folded into the oracle since
both fetchers are network I/O — yields a status, a raw HTML text, and its
parsed soup. -/
inductive FetchOutcome where
  | raised (msg : String)
  | fetched (status : Nat) (html : String) (soup : Soup)

/-- The error-bearing record both failure branches of `scrape_urls` build:
every field absent except `error`. -/
def errorRecord (url msg : String) : ArticleRecord :=
  { url := url, site := get_domain url, title := none, author := none,
    published_date := none, description := none, body := none, error := some msg }

/-- The body of the per-URL `try` block of `scrape_urls`, as a function of
what the environment did: an exception becomes an error record with the
exception's text, a non-200 status or empty (falsy) HTML becomes an
`HTTP <status>` error record, and otherwise `parse_page_generic`'s record is
used verbatim. -/
def recordOf (url : String) : FetchOutcome → ArticleRecord
  | .raised msg => errorRecord url msg
  | .fetched status html soup =>
    if status ≠ 200 || html = "" then errorRecord url ("HTTP " ++ toString status)
    else parse_page_generic soup url

/-- `scrape_urls(urls)` given the per-URL environment: one record per URL, in
order. -/
def scrape_urls (fetch : String → FetchOutcome) (urls : List String) : List ArticleRecord :=
  urls.map fun url => recordOf url (fetch url)

/-! ### `build_numbers_table` -/

/-- One row of the persisted table. -/
structure MetricRow where
  url : String
  site : String
  title : Option String
  published_date : Option String
  metric_type : String
  value : String
  context_snippet : String
deriving DecidableEq, Repr

/-- Python truthiness of `r.get("error")`: present and nonempty. -/
def errTruthy : Option String → Bool
  | some s => s ≠ ""
  | none => false

/-- The loop body of `build_numbers_table` for one record: skip records with
a truthy `error`, mine `description`, a blank line, and `body` (absent fields
as `""`), and keep the first `max_snippets_per_url` snippets as rows. -/
def numbersFor (r : ArticleRecord) (maxSnippetsPerUrl : Nat) : List MetricRow :=
  if errTruthy r.error then []
  else
    let combined := (r.description.getD "") ++ "\n\n" ++ (r.body.getD "")
    let snippets := extract_percent_and_time_snippets combined 90 80
    if snippets.isEmpty then []
    else
      (snippets.take maxSnippetsPerUrl).map fun s =>
        { url := r.url, site := r.site, title := r.title,
          published_date := r.published_date, metric_type := s.metric_type,
          value := s.value, context_snippet := s.snippet }

/-- `build_numbers_table(rows, max_snippets_per_url)`: the per-record row
blocks appended in record order. -/
def build_numbers_table (rows : List ArticleRecord) (maxSnippetsPerUrl : Nat) :
    List MetricRow :=
  rows.flatMap (fun r => numbersFor r maxSnippetsPerUrl)

/-! ## Lemmas about the miner loops -/

/-- Each processed match appends at most one hit, and any appended hit carries
the family's metric type and passes the relevance filter. -/
lemma appendHit_spec (mt : String) (cs : List Char) (window : Nat) (se : Nat × Nat)
    (hits : List MetricSnippet) :
    ∃ t, appendHit mt cs window se hits = hits ++ t ∧ t.length ≤ 1 ∧
      ∀ x ∈ t, x.metric_type = mt ∧ snippet_has_change_context x.snippet = true := by
  unfold appendHit
  cases h : clean (String.mk (sliceChars cs (se.1 - window) (min cs.length (se.2 + window)))) with
  | none => exact ⟨[], by simp⟩
  | some s =>
    cases hc : snippet_has_change_context s with
    | false => exact ⟨[], by simp [hc]⟩
    | true =>
      refine ⟨[⟨mt, String.mk (sliceChars cs se.1 se.2), s⟩], ?_⟩
      simp [hc]

/-- The inner loop only appends, and every appended hit has the family's type
and passes the filter. -/
lemma processMatches_spec (mt : String) (cs : List Char) (window maxHits : Nat)
    (ms : List (Nat × Nat)) :
    ∀ hits, ∃ t, (processMatches mt cs window maxHits ms hits).1 = hits ++ t ∧
      ∀ x ∈ t, x.metric_type = mt ∧ snippet_has_change_context x.snippet = true := by
  induction ms with
  | nil => intro hits; exact ⟨[], by simp [processMatches]⟩
  | cons se rest ih =>
    intro hits
    obtain ⟨t0, ht0, _, hp0⟩ := appendHit_spec mt cs window se hits
    simp only [processMatches, ht0]
    by_cases hstop : maxHits ≤ (hits ++ t0).length
    · rw [if_pos (by simpa using hstop)]
      exact ⟨t0, rfl, hp0⟩
    · rw [if_neg (by simpa using hstop)]
      obtain ⟨t1, ht1, hp1⟩ := ih (hits ++ t0)
      refine ⟨t0 ++ t1, ?_, ?_⟩
      · rw [ht1, List.append_assoc]
      · intro x hx
        rcases List.mem_append.mp hx with h | h
        · exact hp0 x h
        · exact hp1 x h

/-- The cap: entering the inner loop strictly below `maxHits`, the result
never exceeds `maxHits`, and strictly below it when no early exit fired. -/
lemma processMatches_le (mt : String) (cs : List Char) (window maxHits : Nat)
    (ms : List (Nat × Nat)) :
    ∀ hits, hits.length < maxHits →
      (processMatches mt cs window maxHits ms hits).1.length ≤ maxHits ∧
      ((processMatches mt cs window maxHits ms hits).2 = false →
        (processMatches mt cs window maxHits ms hits).1.length < maxHits) := by
  induction ms with
  | nil => intro hits hlt; simp [processMatches]; omega
  | cons se rest ih =>
    intro hits hlt
    obtain ⟨t0, ht0, hlen0, _⟩ := appendHit_spec mt cs window se hits
    simp only [processMatches, ht0]
    by_cases hstop : maxHits ≤ (hits ++ t0).length
    · rw [if_pos (by simpa using hstop)]
      constructor
      · simp only [List.length_append] at *
        omega
      · intro hfalse
        simp at hfalse
    · rw [if_neg (by simpa using hstop)]
      exact ih (hits ++ t0) (by omega)

/-- The outer per-family loop only appends typed, filtered hits. -/
lemma runPats_spec (mt : String) (cs : List Char) (window maxHits : Nat)
    (pats : List (List Char → Nat → Option Nat)) :
    ∀ hits, ∃ t, (runPats mt cs window maxHits pats hits).1 = hits ++ t ∧
      ∀ x ∈ t, x.metric_type = mt ∧ snippet_has_change_context x.snippet = true := by
  induction pats with
  | nil => intro hits; exact ⟨[], by simp [runPats]⟩
  | cons m rest ih =>
    intro hits
    obtain ⟨t0, ht0, hp0⟩ := processMatches_spec mt cs window maxHits (finditer m cs) hits
    simp only [runPats]
    by_cases hflag : (processMatches mt cs window maxHits (finditer m cs) hits).2 = true
    · rw [if_pos hflag]
      exact ⟨t0, ht0, hp0⟩
    · rw [if_neg hflag]
      obtain ⟨t1, ht1, hp1⟩ := ih (processMatches mt cs window maxHits (finditer m cs) hits).1
      refine ⟨t0 ++ t1, ?_, ?_⟩
      · rw [ht1, ht0, List.append_assoc]
      · intro x hx
        rcases List.mem_append.mp hx with h | h
        · exact hp0 x h
        · exact hp1 x h

/-- The cap across the patterns of one family. -/
lemma runPats_le (mt : String) (cs : List Char) (window maxHits : Nat)
    (pats : List (List Char → Nat → Option Nat)) :
    ∀ hits, hits.length < maxHits →
      (runPats mt cs window maxHits pats hits).1.length ≤ maxHits ∧
      ((runPats mt cs window maxHits pats hits).2 = false →
        (runPats mt cs window maxHits pats hits).1.length < maxHits) := by
  induction pats with
  | nil => intro hits hlt; simp [runPats]; omega
  | cons m rest ih =>
    intro hits hlt
    obtain ⟨hle, hlt'⟩ := processMatches_le mt cs window maxHits (finditer m cs) hits hlt
    simp only [runPats]
    by_cases hflag : (processMatches mt cs window maxHits (finditer m cs) hits).2 = true
    · rw [if_pos hflag]
      exact ⟨hle, by intro h; simp at h⟩
    · rw [if_neg hflag]
      exact ih _ (hlt' (by simpa using hflag))

/-- Every match the scan emits starts at or after the scan position. -/
lemma finditerGo_lb (m : List Char → Nat → Option Nat) (cs : List Char) :
    ∀ fuel pos x, x ∈ finditerGo m cs pos fuel → pos ≤ x.1 := by
  intro fuel
  induction fuel with
  | zero => intro pos x hx; simp [finditerGo] at hx
  | succ f ih =>
    intro pos x hx
    by_cases hend : cs.length < pos
    · simp [finditerGo, hend] at hx
    · simp only [finditerGo, if_neg hend] at hx
      cases hm : m cs pos with
      | some e =>
        rw [hm] at hx
        rcases List.mem_cons.mp hx with h | h
        · simp [h]
        · have := ih (max e (pos + 1)) x h
          omega
      | none =>
        rw [hm] at hx
        have := ih (pos + 1) x hx
        omega

/-- The matches of one pattern come out in strictly increasing start
positions: source order. -/
lemma finditerGo_sorted (m : List Char → Nat → Option Nat) (cs : List Char) :
    ∀ fuel pos, (finditerGo m cs pos fuel).Pairwise (fun a b => a.1 < b.1) := by
  intro fuel
  induction fuel with
  | zero => intro pos; simp [finditerGo]
  | succ f ih =>
    intro pos
    by_cases hend : cs.length < pos
    · simp [finditerGo, hend]
    · simp only [finditerGo, if_neg hend]
      cases hm : m cs pos with
      | some e =>
        refine List.pairwise_cons.mpr ⟨?_, ih (max e (pos + 1))⟩
        intro x hx
        have := finditerGo_lb m cs f (max e (pos + 1)) x hx
        simp only
        omega
      | none => exact ih (pos + 1)

/-- C3: the miner caps its output at `max_hits` (amended: for `max_hits ≥ 1` —
at `max_hits = 0` the check `len(hits) >= max_hits` runs only after a hit was
already appended, so one snippet can come out), every returned snippet passes
the change-vocabulary relevance filter, and when the percent phase fires the
early exit the time patterns are never attempted. -/
theorem C3_miner_cap_filter_early_exit (text : String) (window maxHits : Nat)
    (h : 1 ≤ maxHits) :
    (extract_percent_and_time_snippets text window maxHits).length ≤ maxHits ∧
    (∀ s ∈ extract_percent_and_time_snippets text window maxHits,
      snippet_has_change_context s.snippet = true) ∧
    ((runPats "percent" text.data window maxHits percentMatchers []).2 = true →
      extract_percent_and_time_snippets text window maxHits =
        (runPats "percent" text.data window maxHits percentMatchers []).1) := by
  by_cases hemp : text.isEmpty
  · have htxt : text = "" := (String.isEmpty_iff text).mp hemp
    subst htxt
    refine ⟨by simp [extract_percent_and_time_snippets, hemp], ?_, ?_⟩
    · intro s hs
      simp [extract_percent_and_time_snippets, hemp] at hs
    · intro hflag
      have hz : (runPats "percent" ("" : String).data window maxHits percentMatchers []).2
          = false := rfl
      rw [hz] at hflag
      cases hflag
  · have hunf : extract_percent_and_time_snippets text window maxHits =
        (if (runPats "percent" text.data window maxHits percentMatchers []).2 then
          (runPats "percent" text.data window maxHits percentMatchers []).1
        else (runPats "time" text.data window maxHits timeMatchers
          (runPats "percent" text.data window maxHits percentMatchers []).1).1) := by
      simp only [extract_percent_and_time_snippets, if_neg hemp]
    obtain ⟨hple, hplt⟩ :=
      runPats_le "percent" text.data window maxHits percentMatchers [] (by simpa using h)
    obtain ⟨t0, ht0, hp0⟩ := runPats_spec "percent" text.data window maxHits percentMatchers []
    by_cases hflag : (runPats "percent" text.data window maxHits percentMatchers []).2 = true
    · rw [hunf, if_pos hflag]
      refine ⟨hple, ?_, fun _ => rfl⟩
      intro s hs
      rw [ht0] at hs
      exact (hp0 s (by simpa using hs)).2
    · obtain ⟨t1, ht1, hp1⟩ := runPats_spec "time" text.data window maxHits timeMatchers
        (runPats "percent" text.data window maxHits percentMatchers []).1
      obtain ⟨htle, _⟩ := runPats_le "time" text.data window maxHits timeMatchers
        (runPats "percent" text.data window maxHits percentMatchers []).1
        (hplt (by simpa using hflag))
      rw [hunf, if_neg hflag]
      refine ⟨htle, ?_, fun hc => absurd hc hflag⟩
      intro s hs
      rw [ht1] at hs
      rcases List.mem_append.mp hs with hmem | hmem
      · rw [ht0] at hmem
        exact (hp0 s (by simpa using hmem)).2
      · exact (hp1 s hmem).2

/-- C4 (amended): the output splits into the percent-phase snippets followed
by the time-phase snippets, and one pattern's matches are enumerated in
strictly increasing text position.  (Across the patterns of one family the
global source order can be violated; see the counterexample.) -/
theorem C4_phase_order_and_per_pattern_order (text : String) (window maxHits : Nat) :
    (∃ pc tm, extract_percent_and_time_snippets text window maxHits = pc ++ tm ∧
      (∀ s ∈ pc, s.metric_type = "percent") ∧ (∀ s ∈ tm, s.metric_type = "time")) ∧
    (∀ (m : List Char → Nat → Option Nat) (cs : List Char),
      (finditer m cs).Pairwise (fun a b => a.1 < b.1)) := by
  constructor
  · by_cases hemp : text.isEmpty
    · exact ⟨[], [], by simp [extract_percent_and_time_snippets, hemp], by simp, by simp⟩
    · have hunf : extract_percent_and_time_snippets text window maxHits =
          (if (runPats "percent" text.data window maxHits percentMatchers []).2 then
            (runPats "percent" text.data window maxHits percentMatchers []).1
          else (runPats "time" text.data window maxHits timeMatchers
            (runPats "percent" text.data window maxHits percentMatchers []).1).1) := by
        simp only [extract_percent_and_time_snippets, if_neg hemp]
      obtain ⟨t0, ht0, hp0⟩ := runPats_spec "percent" text.data window maxHits percentMatchers []
      by_cases hflag : (runPats "percent" text.data window maxHits percentMatchers []).2 = true
      · refine ⟨(runPats "percent" text.data window maxHits percentMatchers []).1, [],
          by rw [hunf, if_pos hflag, List.append_nil], ?_, by simp⟩
        intro s hs
        rw [ht0] at hs
        exact (hp0 s (by simpa using hs)).1
      · obtain ⟨t1, ht1, hp1⟩ := runPats_spec "time" text.data window maxHits timeMatchers
          (runPats "percent" text.data window maxHits percentMatchers []).1
        refine ⟨(runPats "percent" text.data window maxHits percentMatchers []).1, t1,
          by rw [hunf, if_neg hflag, ht1], ?_, fun s hs => (hp1 s hs).1⟩
        intro s hs
        rw [ht0] at hs
        exact (hp0 s (by simpa using hs)).1
  · intro m cs
    exact finditerGo_sorted m cs (cs.length + 1) 0

/-- C4, counterexample to the claim as stated: on this text the pattern
`\b\d+(\.\d+)?\s*%` is exhausted before `\b\d+(\.\d+)?\s*(percent|percentage)\b`
is attempted, so `6%` (match position 27) is emitted before `5 percent`
(match position 6) — percent snippets are not globally in source order. -/
theorem C4_counterexample :
    extract_percent_and_time_snippets "saved 5 percent then saved 6%" 90 80 =
      [⟨"percent", "6%", "saved 5 percent then saved 6%"⟩,
       ⟨"percent", "5 percent", "saved 5 percent then saved 6%"⟩] ∧
    sliceChars ("saved 5 percent then saved 6%" : String).data 6 15 = "5 percent".data ∧
    sliceChars ("saved 5 percent then saved 6%" : String).data 27 29 = "6%".data :=
  ⟨rfl, rfl, rfl⟩

/-- C3, counterexample to the claim as stated: at `max_hits = 0` the miner
still returns one snippet, because the cap is checked only after a hit was
appended. -/
theorem C3_counterexample :
    ¬ ((extract_percent_and_time_snippets "reduced 5%" 90 0).length ≤ 0) := by
  have : extract_percent_and_time_snippets "reduced 5%" 90 0 =
      [⟨"percent", "5%", "reduced 5%"⟩] := rfl
  simp [this]

/-- C3, witness: the cap, filter and early-exit facts at a concrete input. -/
theorem C3_miner_cap_filter_early_exit_witness :
    (extract_percent_and_time_snippets "reduced 5%" 90 80).length ≤ 80 ∧
    (∀ s ∈ extract_percent_and_time_snippets "reduced 5%" 90 80,
      snippet_has_change_context s.snippet = true) ∧
    ((runPats "percent" ("reduced 5%" : String).data 90 80 percentMatchers []).2 = true →
      extract_percent_and_time_snippets "reduced 5%" 90 80 =
        (runPats "percent" ("reduced 5%" : String).data 90 80 percentMatchers []).1) :=
  C3_miner_cap_filter_early_exit "reduced 5%" 90 80 (by decide)

/-- C7: on the spec's example the miner returns exactly one percent snippet
with value `42.5%`, whose snippet text contains `reduced`. -/
theorem C7_percent_example :
    extract_percent_and_time_snippets
        "Our team reduced review time by 42.5% after adopting the tool." 90 80 =
      [⟨"percent", "42.5%",
        "Our team reduced review time by 42.5% after adopting the tool."⟩] ∧
    containsSub "reduced".data
      ("Our team reduced review time by 42.5% after adopting the tool." : String).data = true :=
  ⟨rfl, rfl⟩

/-- C8: on the cost example the miner returns no snippet at all. -/
theorem C8_cost_example :
    extract_percent_and_time_snippets "The meeting room costs $42.50 per hour to book." 90 80
      = [] := rfl

/-- Whole-word occurrence of `w` in `cs` (word boundaries on both sides),
the test the relevance filter does NOT perform. -/
def occursAsWord (w : List Char) (cs : List Char) : Bool :=
  (List.range (cs.length + 1)).any fun i =>
    w.isPrefixOf (cs.drop i) && noWordBefore cs i && boundaryAfter cs (i + w.length)

/-- C9: the relevance filter is substring containment, not whole-word
matching: in this text no change keyword occurs as a whole word (`cut` occurs
only inside `executive`), yet the miner still returns a snippet. -/
theorem C9_substring_containment :
    (CHANGE_KEYWORDS.all fun k =>
      !(occursAsWord k.data
        (lowerChars ("The executive approved 5% of the budget." : String).data))) = true ∧
    extract_percent_and_time_snippets "The executive approved 5% of the budget." 90 80 =
      [⟨"percent", "5%", "The executive approved 5% of the budget."⟩] ∧
    snippet_has_change_context "The executive approved 5% of the budget." = true := by
  refine ⟨by decide, rfl, rfl⟩

/-! ## The orchestrator claims -/

/-- C1: one record per URL in input order; an exception for one URL becomes
that URL's error record and never disturbs the rest (every index keeps its
record, so the batch is never aborted). -/
theorem C1_one_record_per_url (fetch : String → FetchOutcome) (urls : List String) :
    (scrape_urls fetch urls).length = urls.length ∧
    ∀ (i : Nat) (url : String), urls[i]? = some url →
      ∃ r, (scrape_urls fetch urls)[i]? = some r ∧ r.url = url ∧
        ∀ msg, fetch url = FetchOutcome.raised msg → r = errorRecord url msg := by
  refine ⟨by simp [scrape_urls], ?_⟩
  intro i url hi
  have hmap : (scrape_urls fetch urls)[i]? = some (recordOf url (fetch url)) := by
    simp [scrape_urls, List.getElem?_map, hi]
  refine ⟨recordOf url (fetch url), hmap, ?_, ?_⟩
  · cases hf : fetch url with
    | raised msg => simp [recordOf, errorRecord]
    | fetched status html soup =>
      by_cases hs : status = 200 <;> by_cases hh : html = "" <;>
        simp [recordOf, errorRecord, parse_page_generic, hs, hh]
  · intro msg hmsg
    rw [hmsg]
    simp [recordOf]

/-- C2: in every record `scrape_urls` produces, a set `error` forces every
other optional field (title, author, published_date, description, body) to be
absent; in particular `error` and a populated `body` are mutually exclusive. -/
theorem C2_error_excludes_fields (fetch : String → FetchOutcome) (urls : List String)
    (r : ArticleRecord) (hr : r ∈ scrape_urls fetch urls) (he : r.error ≠ none) :
    r.title = none ∧ r.author = none ∧ r.published_date = none ∧
    r.description = none ∧ r.body = none := by
  obtain ⟨url, _, hf⟩ := List.mem_map.mp hr
  cases hfetch : fetch url with
  | raised msg =>
    rw [hfetch] at hf
    rw [← hf]
    simp [recordOf, errorRecord]
  | fetched status html soup =>
    rw [hfetch] at hf
    rw [← hf] at he ⊢
    by_cases hs : status = 200 <;> by_cases hh : html = "" <;>
      simp [recordOf, errorRecord, parse_page_generic, hs, hh] at he ⊢

/-- An environment in which every fetch raises. -/
def fetchBoom : String → FetchOutcome := fun _ => FetchOutcome.raised "boom"

/-- C2, witness: the error record of a raising fetch has every optional field
absent. -/
theorem C2_error_excludes_fields_witness :
    (errorRecord "http://a" "boom").title = none ∧
    (errorRecord "http://a" "boom").author = none ∧
    (errorRecord "http://a" "boom").published_date = none ∧
    (errorRecord "http://a" "boom").description = none ∧
    (errorRecord "http://a" "boom").body = none :=
  C2_error_excludes_fields fetchBoom ["http://a"] (errorRecord "http://a" "boom")
    (by simp [scrape_urls, fetchBoom, recordOf]) (by simp [errorRecord])

/-! ## The body-assembly claim -/

/-- C5 (amended): when the first retained paragraph of the matched container
matches the photo-credit pattern AND at least one more retained paragraph
follows, the assembled body is the join of the remaining paragraphs, i.e. the
credit line is dropped.  (With a single retained paragraph the source's
`len(texts) > 1` guard keeps it; see the counterexample.) -/
theorem C5_getty_dropped (soup : Soup) (ps : List String) (containerText t0 t1 : String)
    (rest : List String) (hbc : soup.bodyContainer = some (ps, containerText))
    (hret : retainedParagraphs ps = t0 :: t1 :: rest)
    (hg : gettyCredit (lowerChars t0.data) = true) :
    extract_body_generic soup = some (String.intercalate "\n\n" (t1 :: rest)) := by
  unfold extract_body_generic
  rw [hbc]
  simp only [hret]
  simp [hg]

/-- A page whose matched container holds only the photo-credit paragraph. -/
def soupOnlyGetty : Soup :=
  { selectText := fun _ => none, metaNameContent := fun _ => none,
    metaPropContent := fun _ => none, jsonLd := (none, none), pageText := "",
    bodyContainer := some (["Photo via Getty Images"], "Photo via Getty Images") }

/-- C5, counterexample to the claim as stated: when the photo-credit line is
the ONLY retained paragraph, the `len(texts) > 1` guard keeps it, so the body
does not exclude it. -/
theorem C5_counterexample :
    retainedParagraphs ["Photo via Getty Images"] = ["Photo via Getty Images"] ∧
    gettyCredit (lowerChars ("Photo via Getty Images" : String).data) = true ∧
    extract_body_generic soupOnlyGetty = some "Photo via Getty Images" :=
  ⟨rfl, rfl, rfl⟩

/-- A page whose matched container has the credit line and two real
paragraphs. -/
def soupGettyThenBody : Soup :=
  { selectText := fun _ => none, metaNameContent := fun _ => none,
    metaPropContent := fun _ => none, jsonLd := (none, none), pageText := "",
    bodyContainer := some
      (["Photo via Getty Images", "Real paragraph one.", "Another real paragraph."],
       "full text") }

/-- C5, witness: with real paragraphs after the credit line the body excludes
it. -/
theorem C5_getty_dropped_witness :
    extract_body_generic soupGettyThenBody =
      some (String.intercalate "\n\n" ["Real paragraph one.", "Another real paragraph."]) ∧
    containsSub "Photo via Getty Images".data
      ("Real paragraph one.\n\nAnother real paragraph." : String).data = false :=
  ⟨C5_getty_dropped soupGettyThenBody _ "full text" _ _ _ rfl rfl rfl, by decide⟩

/-! ## The aggregation claim -/

/-- The record of the spec's aggregation test: no error, and a body holding
ten qualifying percent mentions. -/
def recTenSnippets : ArticleRecord :=
  { url := "u", site := "s", title := none, author := none, published_date := none,
    description := none,
    body := some "saved 1% saved 2% saved 3% saved 4% saved 5% saved 6% saved 7% saved 8% saved 9% saved 10%",
    error := none }

/-- C6: over records satisfying the pipeline invariant (a set `error` means
description and body are absent — what `scrape_urls` guarantees), the table
is exactly: nothing for records with `error` set, and for every error-free
record the first `max_snippets_per_url` snippets mined from
`description ++ "\n\n" ++ body`, in mined order; and the spec's concrete
test: a record with ten qualifying snippets and a cap of six yields exactly
six rows. -/
theorem C6_aggregation (rows : List ArticleRecord) (maxS : Nat)
    (hwf : ∀ r ∈ rows, r.error.isSome = true → r.description = none ∧ r.body = none) :
    (build_numbers_table rows maxS = rows.flatMap (fun r =>
      if r.error.isSome then []
      else ((extract_percent_and_time_snippets
              ((r.description.getD "") ++ "\n\n" ++ (r.body.getD "")) 90 80).take maxS).map
        (fun s => { url := r.url, site := r.site, title := r.title,
                    published_date := r.published_date, metric_type := s.metric_type,
                    value := s.value, context_snippet := s.snippet }))) ∧
    (extract_percent_and_time_snippets
      (((recTenSnippets).description.getD "") ++ "\n\n" ++ ((recTenSnippets).body.getD ""))
      90 80).length = 10 ∧
    (build_numbers_table [recTenSnippets] 6).length = 6 := by
  refine ⟨?_, rfl, rfl⟩
  induction rows with
  | nil => simp [build_numbers_table]
  | cons r rest ih =>
    have hr := hwf r (by simp)
    have hrest : ∀ x ∈ rest, x.error.isSome = true → x.description = none ∧ x.body = none :=
      fun x hx => hwf x (by simp [hx])
    simp only [build_numbers_table, List.flatMap_cons] at *
    rw [ih hrest]
    congr 1
    cases herr : r.error with
    | none =>
      simp only [numbersFor, errTruthy, herr, Option.isSome_none, Bool.false_eq_true,
        if_false]
      by_cases hsnip : (extract_percent_and_time_snippets
          ((r.description.getD "") ++ "\n\n" ++ (r.body.getD "")) 90 80).isEmpty
      · rw [if_pos hsnip]
        rw [List.isEmpty_iff] at hsnip
        simp [hsnip]
      · rw [if_neg hsnip]
    | some e =>
      obtain ⟨hdesc, hbody⟩ := hr (by simp [herr])
      by_cases he : e = ""
      · subst he
        have hmt : extract_percent_and_time_snippets "\n\n" 90 80 = [] := rfl
        simp [numbersFor, errTruthy, herr, hdesc, hbody, hmt]
      · simp [numbersFor, errTruthy, herr, he]

/-- C6, witness: the characterisation at the spec's concrete test record. -/
theorem C6_aggregation_witness :
    (build_numbers_table [recTenSnippets] 6 = [recTenSnippets].flatMap (fun r =>
      if r.error.isSome then []
      else ((extract_percent_and_time_snippets
              ((r.description.getD "") ++ "\n\n" ++ (r.body.getD "")) 90 80).take 6).map
        (fun s => { url := r.url, site := r.site, title := r.title,
                    published_date := r.published_date, metric_type := s.metric_type,
                    value := s.value, context_snippet := s.snippet }))) ∧
    (extract_percent_and_time_snippets
      (((recTenSnippets).description.getD "") ++ "\n\n" ++ ((recTenSnippets).body.getD ""))
      90 80).length = 10 ∧
    (build_numbers_table [recTenSnippets] 6).length = 6 :=
  C6_aggregation [recTenSnippets] 6 (by decide)

/-! ## The published-date fallback claim -/

/-- A greedy run never exceeds the text. -/
lemma runLength_le_length (p : Char → Bool) (cs : List Char) :
    runLength p cs ≤ cs.length := by
  induction cs with
  | nil => simp [runLength]
  | cons c t ih =>
    by_cases hc : p c
    · simp only [runLength, if_pos hc, List.length_cons]
      omega
    · simp [runLength, hc]

/-- Any prefix of a greedy run satisfies the class. -/
lemma all_take_runLength (p : Char → Bool) (cs : List Char) :
    ∀ k, k ≤ runLength p cs → (cs.take k).all p = true := by
  induction cs with
  | nil => intro k hk; simp [runLength] at hk; simp [hk]
  | cons c t ih =>
    intro k hk
    by_cases hc : p c
    · cases k with
      | zero => simp
      | succ k' =>
        simp only [runLength, if_pos hc] at hk
        simp only [List.take_succ_cons, List.all_cons, hc, Bool.true_and]
        exact ih k' (by omega)
    · simp only [runLength, if_neg hc] at hk
      have : k = 0 := by omega
      simp [this]

/-- Splitting one `take` of a five-part sum into the five segments. -/
lemma take_decomp (cs : List Char) (a b c d e : Nat) :
    cs.take (a + b + c + d + e) =
      cs.take a ++ ((cs.drop a).take b ++ ((cs.drop (a + b)).take c ++
        ((cs.drop (a + b + c)).take d ++ (cs.drop (a + b + c + d)).take e))) := by
  rw [show a + b + c + d + e = a + (b + (c + (d + e))) by omega, List.take_add]
  congr 1
  rw [List.take_add, List.drop_drop]
  congr 1
  rw [List.take_add, List.drop_drop]
  congr 1
  rw [List.take_add, List.drop_drop]

/-- The claim's shape for the captured group: a 1–2 digit day, whitespace, a
three-letter month, whitespace, and a four-digit year. -/
def DayMonYearShape (g : List Char) : Prop :=
  ∃ day w1 mon w2 yr, g = day ++ (w1 ++ (mon ++ (w2 ++ yr))) ∧
    day ≠ [] ∧ day.length ≤ 2 ∧ day.all isDigitChar = true ∧
    w1 ≠ [] ∧ w1.all isSpaceChar = true ∧
    mon.length = 3 ∧ mon.all isAsciiLetter = true ∧
    w2 ≠ [] ∧ w2.all isSpaceChar = true ∧
    yr.length = 4 ∧ yr.all isDigitChar = true

/-- Whatever `dayMonYearAt` captures has the day–month–year shape. -/
lemma dayMonYearAt_shape (cs : List Char) (g : List Char)
    (h : dayMonYearAt cs = some g) : DayMonYearShape g := by
  simp only [dayMonYearAt] at h
  split_ifs at h with h1 h2 h3 h4 h5
  · injection h with hg
    subst hg
    simp only [Bool.and_eq_true, decide_eq_true_eq] at h3 h5
    set d0 := runLength isDigitChar cs with hd0
    set day := min d0 2 with hday
    set s1 := runLength isSpaceChar (cs.drop day) with hs1
    set s2 := runLength isSpaceChar (cs.drop (day + s1 + 3)) with hs2
    have hlen : d0 ≤ cs.length := runLength_le_length _ _
    have hlen1 : s1 ≤ (cs.drop day).length := runLength_le_length _ _
    have hlen2 : s2 ≤ (cs.drop (day + s1 + 3)).length := runLength_le_length _ _
    refine ⟨cs.take day, (cs.drop day).take s1, (cs.drop (day + s1)).take 3,
      (cs.drop (day + s1 + 3)).take s2, (cs.drop (day + s1 + 3 + s2)).take 4,
      take_decomp cs day s1 3 s2 4, ?_, ?_, ?_, ?_, ?_, h3.1, h3.2, ?_, ?_, h5.1, h5.2⟩
    · refine List.length_pos.mp ?_
      rw [List.length_take]
      omega
    · rw [List.length_take]
      omega
    · exact all_take_runLength isDigitChar cs day (Nat.min_le_left d0 2)
    · refine List.length_pos.mp ?_
      rw [List.length_take]
      omega
    · exact all_take_runLength isSpaceChar (cs.drop day) s1 le_rfl
    · refine List.length_pos.mp ?_
      rw [List.length_take]
      omega
    · exact all_take_runLength isSpaceChar (cs.drop (day + s1 + 3)) s2 le_rfl

/-- A successful `matchPublishedAt` is a successful `dayMonYearAt` on the
suffix after `Published:` and the leading whitespace. -/
lemma matchPublishedAt_some (cs : List Char) (i : Nat) (g : List Char)
    (h : matchPublishedAt cs i = some g) :
    dayMonYearAt ((cs.drop (i + 10)).drop
      (runLength isSpaceChar (cs.drop (i + 10)))) = some g := by
  unfold matchPublishedAt at h
  split_ifs at h
  rw [List.drop_drop]
  exact h

/-- C10: the published-date regex fallback captures only day–month–year
groups of the claim's shape (1–2 digit day, exactly three letters of month,
4-digit year); `Published: 12 Jan 2024` is captured as `12 Jan 2024`,
`Published: 12 January 2024` is not captured at all, and in that case —
when no earlier cascade step produced a value — `parse_page_generic` leaves
`published_date` absent. -/
theorem C10_published_fallback :
    (∀ cs g, searchPublished cs = some g → DayMonYearShape g) ∧
    searchPublished ("Published: 12 Jan 2024" : String).data
      = some ("12 Jan 2024" : String).data ∧
    searchPublished ("Published: 12 January 2024" : String).data = none ∧
    (∀ (soup : Soup) (url : String),
      (parse_json_ld_for_article soup).2 = none →
      meta_content_prop soup "article:published_time" = none →
      meta_content_name soup "pubdate" = none →
      meta_content_name soup "date" = none →
      searchPublished soup.pageText.data = none →
      (parse_page_generic soup url).published_date = none) := by
  refine ⟨?_, rfl, rfl, ?_⟩
  · intro cs g h
    obtain ⟨_, i, _, _, hi, _⟩ := List.findSome?_eq_some_iff.mp h
    exact dayMonYearAt_shape _ g (matchPublishedAt_some cs i g hi)
  · intro soup url h1 h2 h3 h4 h5
    simp [parse_page_generic, h1, h2, h3, h4, h5]
